import Mathlib

/-!
# scaler.c : 24-bit BMP to grayscale

A shallow embedding of `src/files/cuda/scaler.c` and the properties proved
about it.

Modelling conventions.

* A byte (`unsigned char`) is a `Nat` below 256; buffers and files are
  `List Nat`.  `uint32_t` / `uint16_t` values are `Nat` reduced modulo
  `2 ^ 32` / `2 ^ 16` where the C arithmetic wraps.
* The input file is the list of its bytes; `fread` copies as many bytes as the
  stream still holds and leaves the rest of the destination buffer as it was.
  Local arrays and `malloc`ed memory start with indeterminate contents, which
  are a parameter of `main` (`Machine`).
* The array `remain_info` of line 73 lives on the stack and has a size taken
  from the file.  The room the stack has for it is a parameter of `main`
  (`Machine.stack`): a larger array ends the run with a signal at line 73,
  ahead of the first `fwrite`.  An array of size zero is accepted as compilers
  do.
* The output of a run that returns is the sequence of bytes handed to
  `fwrite`, in order.  `fopen`, `malloc` and `fwrite` themselves are taken to
  succeed unless stated (`fopen` failure is the `none` / `false` argument of
  `main`).
* `int32_t` arithmetic is two's complement and wraps modulo `2 ^ 32`, like the
  unsigned arithmetic.  An access outside `img` in the pixel loop is undefined
  behaviour: the result `none` of the loop, which ends the run with a signal.
* A run ended by a signal has no exit status, and none of its output is
  recorded: what was handed to `fwrite` until then sits in the buffer of the
  stream, which only `fclose` (line 115) is sure to empty.
* The calls to `now_sec` and the timing report on `stderr` are left out.
-/

namespace Scaler

/-! ## Constants (lines 6-9) -/

def HEADER_STR : Nat := 0x00
def HEADER_END : Nat := 0x0D
def HEADER_SIZE : Nat := HEADER_END - HEADER_STR + 1
def COMMON_INFO_SIZE : Nat := 40

/-! ## Field readers and the luma function (lines 14-41) -/

/-- The byte `p[k]` behind a pointer `p`, the pointer being the list of bytes
from its target onwards. -/
def byteAt (p : List Nat) (k : Nat) : Nat := p.getD k 0

/-- Little-endian 32-bit reader `le32` (line 14). -/
def le32 (p : List Nat) : Nat :=
  (byteAt p 0 ||| ((byteAt p 1 <<< 8) % 2 ^ 32) ||| ((byteAt p 2 <<< 16) % 2 ^ 32)
    ||| ((byteAt p 3 <<< 24) % 2 ^ 32)) % 2 ^ 32

/-- Little-endian 16-bit reader `le16` (line 22); the result is converted to
`uint16_t`. -/
def le16 (p : List Nat) : Nat :=
  (byteAt p 0 ||| (byteAt p 1 <<< 8)) % 2 ^ 16

/-- The function `grayscale` (line 37): `y` is an `unsigned int`, the result
is converted to `unsigned char`. -/
def grayscale (r g b : Nat) : Nat :=
  let y := (77 * r + 150 * g + 29 * b + 128) % 2 ^ 32
  (y >>> 8) % 256

/-! ## The pixel loop (lines 91-105) -/

/-- Lines 97-101 for the pointer `p = &img[k]`: read the BGR triple at byte
offset `k` and store the gray value in its three bytes. -/
def pixelUpdate (img : List Nat) (k : Nat) : List Nat :=
  let gray := grayscale (byteAt img (k + 2)) (byteAt img (k + 1)) (byteAt img k)
  ((img.set k gray).set (k + 1) gray).set (k + 2) gray

/-- The body of the inner loop (lines 96-101) for the counters `y` and `x`.
`y * width + x` is computed in `uint32_t` and converted to the `int32_t` `i`;
the index `i * 3` is an `int32_t` product, held here as its 32-bit pattern `k`
(two's complement), so that the index is negative exactly when `2 ^ 31 ≤ k`.
The result is `none` when the three bytes at that index do not lie inside
`img`. -/
def loopBody (width : Nat) (img : List Nat) (y x : Nat) : Option (List Nat) :=
  let i := (y * width + x) % 2 ^ 32
  let k := (i * 3) % 2 ^ 32
  if 2 ^ 31 ≤ k ∨ img.length < k + 3 then none
  else some (pixelUpdate img k)

/-- The inner loop `for (x = ..; x < width; x++)` with `n` iterations left,
the counter standing at `x` (its value as a `uint32_t`, which is how it is
compared with `width`). -/
def innerLoop (width y : Nat) : Nat → Nat → List Nat → Option (List Nat)
  | 0, _, img => some img
  | n + 1, x, img =>
    match loopBody width img y x with
    | none => none
    | some img1 => innerLoop width y n (x + 1) img1

/-- The outer loop `for (y = ..; y < height; y++)` with `n` iterations left,
the counter standing at `y`. -/
def outerLoop (width : Nat) : Nat → Nat → List Nat → Option (List Nat)
  | 0, _, img => some img
  | n + 1, y, img =>
    match innerLoop width y width 0 img with
    | none => none
    | some img1 => outerLoop width n (y + 1) img1

/-- The transform loop of `main` (lines 91-105) on the pixel buffer `img`. -/
def transform (width height : Nat) (img : List Nat) : Option (List Nat) :=
  outerLoop width height 0 img

/-! ## Files and `main` (lines 43-125) -/

/-- What a run depends on besides the two files: the number of bytes the
stack has room for when the array `remain_info` of line 73 is made, and the
indeterminate initial contents of the four buffers of `main`, byte by byte. -/
structure Machine where
  stack : Nat
  header : Nat → Nat
  common_info : Nat → Nat
  remain_info : Nat → Nat
  img : Nat → Nat

/-- A buffer of `n` bytes with the given initial contents. -/
def alloc (junk : Nat → Nat) (n : Nat) : List Nat := (List.range n).map junk

/-- The call `fread(buf, 1, n, fp)`: the buffer afterwards and the rest of the
stream.  A short read leaves the tail of the buffer untouched. -/
def fread (buf : List Nat) (n : Nat) (fp : List Nat) : List Nat × List Nat :=
  (fp.take n ++ buf.drop (fp.take n).length, fp.drop n)

/-- The call `fwrite(buf, 1, n, fp)` on the bytes `out` written so far. -/
def fwrite (out : List Nat) (buf : List Nat) (n : Nat) : List Nat :=
  out ++ buf.take n

/-- Conversion of an integer to `uint32_t`. -/
def toU32 (z : Int) : Nat := (z % 2 ^ 32).toNat

/-- The value `remain_info_size` of line 60. -/
def remain_info_size (data_offset : Nat) : Nat :=
  toU32 ((data_offset : Int) - (HEADER_SIZE : Int) - (COMMON_INFO_SIZE : Int))

/-- The value `pix_num` of line 81. -/
def pix_num (width height : Nat) : Nat := (width * height) % 2 ^ 32

/-- The value `img_size` of line 82. -/
def img_size (width height : Nat) : Nat := (pix_num width height * 3) % 2 ^ 32

/-- What a run of the program leaves behind: the bytes written to the output
stream and the exit status, `none` when the run is ended by a signal. -/
structure Run where
  written : List Nat
  status : Option Nat
deriving DecidableEq

/-- A run ended by a signal: at line 73 when the stack has no room for
`remain_info`, or in the pixel loop when it leaves `img`.  There is no exit
status, and no output is recorded. -/
def killed : Run := ⟨[], none⟩

/-- The function `main`.  `fpi` is the content of `source.bmp`, or `none` when
it cannot be opened; `fpo` tells whether `output.bmp` could be opened. -/
def main (fpi : Option (List Nat)) (fpo : Bool) (u : Machine) : Run :=
  match fpi, fpo with
  | some input, true =>
    let r1 := fread (alloc u.header HEADER_SIZE) HEADER_SIZE input
    let header := r1.1
    let r2 := fread (alloc u.common_info COMMON_INFO_SIZE) COMMON_INFO_SIZE r1.2
    let common_info := r2.1
    let data_offset := le32 (header.drop 10)
    let width := le32 (common_info.drop 4)
    let height := le32 (common_info.drop 8)
    let bpp := le16 (common_info.drop 14)
    let compression := le32 (common_info.drop 16) % 2 ^ 16
    if bpp ≠ 24 ∨ compression ≠ 0 then ⟨[], some 1⟩
    else if u.stack < remain_info_size data_offset then killed
    else
      let r3 := fread (alloc u.remain_info (remain_info_size data_offset))
        (remain_info_size data_offset) r2.2
      let remain_info := r3.1
      let out1 := fwrite [] header HEADER_SIZE
      let out2 := fwrite out1 common_info COMMON_INFO_SIZE
      let out3 := fwrite out2 remain_info (remain_info_size data_offset)
      let r4 := fread (alloc u.img (img_size width height)) (img_size width height) r3.2
      match transform width height r4.1 with
      | none => killed
      | some img => ⟨fwrite out3 img (img_size width height), some 0⟩
  | _, _ => ⟨[], some 1⟩

/-- Every element is a byte. -/
def IsBytes (l : List Nat) : Prop := ∀ b ∈ l, b < 256

/-- Line 74: the buffer `remain_info` after the `fread`, and the stream behind
it. -/
def remainRead (header rest : List Nat) (u : Machine) : List Nat × List Nat :=
  fread (alloc u.remain_info (remain_info_size (le32 (header.drop 10))))
    (remain_info_size (le32 (header.drop 10))) rest

/-- Lines 83-86: the buffer `img` after the `fread`, and the stream behind
it. -/
def imgRead (header common_info rest : List Nat) (u : Machine) : List Nat × List Nat :=
  fread (alloc u.img (img_size (le32 (common_info.drop 4)) (le32 (common_info.drop 8))))
    (img_size (le32 (common_info.drop 4)) (le32 (common_info.drop 8))) (remainRead header rest u).2

/-- The run of `main` behind the validation of line 66 (lines 72-124), on the
two header buffers as read and the rest of the input stream. -/
def mainTail (header common_info rest : List Nat) (u : Machine) : Run :=
  if u.stack < remain_info_size (le32 (header.drop 10)) then killed
  else
    match transform (le32 (common_info.drop 4)) (le32 (common_info.drop 8))
        (imgRead header common_info rest u).1 with
    | none => killed
    | some img => ⟨header ++ common_info ++ (remainRead header rest u).1 ++
        img.take (img_size (le32 (common_info.drop 4)) (le32 (common_info.drop 8))), some 0⟩

/-- Example data: a 14-byte file header with the given `data_offset` bytes. -/
def sampleHeader (off : List Nat) : List Nat :=
  [66, 77, 60, 0, 0, 0, 0, 0, 0, 0] ++ off

/-- Example data: a 40-byte info header with the given width, height,
bits-per-pixel and compression bytes. -/
def sampleInfo (w h bpp comp : List Nat) : List Nat :=
  [40, 0, 0, 0] ++ w ++ h ++ [1, 0] ++ bpp ++ comp ++
    [6, 0, 0, 0, 0, 0, 0, 0, 0, 0, 0, 0, 0, 0, 0, 0, 0, 0, 0, 0]

/-- Example data: a stack with room for 4 MiB, as under the usual limit of
8 MiB on the stack size, and buffers that start out filled with the byte
`0xAA`. -/
def sampleMachine : Machine :=
  ⟨4194304, fun _ => 170, fun _ => 170, fun _ => 170, fun _ => 170⟩

/-- Example data: the same with a stack that has room for `2 ^ 32` bytes, as
when the limit on the stack size is lifted. -/
def bigStackMachine : Machine :=
  ⟨4294967296, fun _ => 170, fun _ => 170, fun _ => 170, fun _ => 170⟩

/-- The gray value of pixel `i` of the buffer `img`: `grayscale` of the bytes
`p[2]`, `p[1]`, `p[0]` at `p = &img[i * 3]`. -/
def grayAt (img : List Nat) (i : Nat) : Nat :=
  grayscale (byteAt img (i * 3 + 2)) (byteAt img (i * 3 + 1)) (byteAt img (i * 3))

/-- Loop invariant: `cur` has the gray pixels of `img` in its first `n` pixels
and is still `img` behind them. -/
def Done (img : List Nat) (n : Nat) (cur : List Nat) : Prop :=
  cur.length = img.length ∧
    ∀ j, byteAt cur j = if j < n * 3 then grayAt img (j / 3) else byteAt img j

/-- The inner loop together with the list of the indices `i` of line 96 for
which its body is entered, in the order of execution; an index is listed as
the `uint32_t` value of `y * width + x`, which is the value of the `int32_t`
`i` when it is below `2 ^ 31`.  The second component is `innerLoop`. -/
def innerTrace (width y : Nat) : Nat → Nat → List Nat → List Nat × Option (List Nat)
  | 0, _, img => ([], some img)
  | n + 1, x, img =>
    match loopBody width img y x with
    | none => ([(y * width + x) % 2 ^ 32], none)
    | some img1 =>
      ((y * width + x) % 2 ^ 32 :: (innerTrace width y n (x + 1) img1).1,
        (innerTrace width y n (x + 1) img1).2)

/-- The outer loop together with the list of the indices for which the loop
body is entered.  The second component is `outerLoop`. -/
def outerTrace (width : Nat) : Nat → Nat → List Nat → List Nat × Option (List Nat)
  | 0, _, img => ([], some img)
  | n + 1, y, img =>
    match (innerTrace width y width 0 img).2 with
    | none => ((innerTrace width y width 0 img).1, none)
    | some img1 =>
      ((innerTrace width y width 0 img).1 ++ (outerTrace width n (y + 1) img1).1,
        (outerTrace width n (y + 1) img1).2)

/-- The transform loop of `main` with the list of the pixel indices it
visits. -/
def transformTrace (width height : Nat) (img : List Nat) : List Nat × Option (List Nat) :=
  outerTrace width height 0 img

/-- Lines 66-124 of `main` for given values of the five locals of lines 59-64,
on the two header buffers as read and the rest of the input stream. -/
def mainFrom (data_offset width height bpp compression : Nat)
    (header common_info rest : List Nat) (u : Machine) : Run :=
  if bpp ≠ 24 ∨ compression ≠ 0 then ⟨[], some 1⟩
  else if u.stack < remain_info_size data_offset then killed
  else
    let r3 := fread (alloc u.remain_info (remain_info_size data_offset))
      (remain_info_size data_offset) rest
    let out1 := fwrite [] header HEADER_SIZE
    let out2 := fwrite out1 common_info COMMON_INFO_SIZE
    let out3 := fwrite out2 r3.1 (remain_info_size data_offset)
    let r4 := fread (alloc u.img (img_size width height)) (img_size width height) r3.2
    match transform width height r4.1 with
    | none => killed
    | some img => ⟨fwrite out3 img (img_size width height), some 0⟩

/-- The pixel updates of lines 97-101 applied to the pixel indices of `order`,
one after the other. -/
def applyOrder (order : List Nat) (img : List Nat) : List Nat :=
  order.foldl (fun cur i => pixelUpdate cur (i * 3)) img

/-- Invariant of `applyOrder`: in `cur` the pixels whose index is in `seen` are
the gray pixels of `img`, all other bytes are those of `img`. -/
def Seen (img : List Nat) (seen : List Nat) (cur : List Nat) : Prop :=
  cur.length = img.length ∧
    ∀ j, byteAt cur j = if j / 3 ∈ seen then grayAt img (j / 3) else byteAt img j

/-! ## Bytes, lists and `grayscale` -/

theorem byteAt_of_lt {l : List Nat} {j : Nat} (h : j < l.length) : byteAt l j = l[j] := by
  simp [byteAt, List.getD_eq_getElem?_getD, List.getElem?_eq_getElem h]

theorem byteAt_set (l : List Nat) (k v j : Nat) (hk : k < l.length) :
    byteAt (l.set k v) j = if j = k then v else byteAt l j := by
  unfold byteAt
  simp only [List.getD_eq_getElem?_getD, List.getElem?_set]
  by_cases h : k = j
  · subst h; simp [hk]
  · have h2 : ¬ j = k := fun e => h e.symm
    simp [h, h2]

theorem ext_byteAt {l1 l2 : List Nat} (hl : l1.length = l2.length)
    (h : ∀ j, j < l1.length → byteAt l1 j = byteAt l2 j) : l1 = l2 := by
  apply List.ext_getElem hl
  intro n h1 h2
  have := h n h1
  rwa [byteAt_of_lt h1, byteAt_of_lt h2] at this

theorem byteAt_lt_of_isBytes {l : List Nat} (hb : IsBytes l) (j : Nat) : byteAt l j < 256 := by
  by_cases h : j < l.length
  · rw [byteAt_of_lt h]
    exact hb _ (List.getElem_mem h)
  · simp [byteAt, List.getD_eq_getElem?_getD, List.getElem?_eq_none (Nat.le_of_not_lt h)]

theorem grayscale_lt (r g b : Nat) : grayscale r g b < 256 := by
  unfold grayscale
  exact Nat.mod_lt _ (by norm_num)

theorem grayscale_eq (r g b : Nat) (hr : r < 256) (hg : g < 256) (hb : b < 256) :
    grayscale r g b = (77 * r + 150 * g + 29 * b + 128) >>> 8 := by
  unfold grayscale
  have h2 : (77 * r + 150 * g + 29 * b + 128) % 2 ^ 32 = 77 * r + 150 * g + 29 * b + 128 :=
    Nat.mod_eq_of_lt (by omega)
  simp only [h2, Nat.shiftRight_eq_div_pow]
  exact Nat.mod_eq_of_lt (by omega)

theorem grayscale_gray (y : Nat) (hy : y < 256) : grayscale y y y = y := by
  rw [grayscale_eq y y y hy hy hy, Nat.shiftRight_eq_div_pow]
  omega

/-! ## The pixel loop computes the gray image -/

theorem length_pixelUpdate (img : List Nat) (k : Nat) :
    (pixelUpdate img k).length = img.length := by
  simp [pixelUpdate]

theorem byteAt_pixelUpdate (img : List Nat) (i j : Nat) (h : i * 3 + 3 ≤ img.length) :
    byteAt (pixelUpdate img (i * 3)) j =
      if i * 3 ≤ j ∧ j < i * 3 + 3 then grayAt img i else byteAt img j := by
  unfold pixelUpdate
  simp only []
  rw [byteAt_set _ _ _ _ (by simp; omega), byteAt_set _ _ _ _ (by simp; omega),
    byteAt_set _ _ _ _ (by omega)]
  unfold grayAt
  split_ifs <;> first | rfl | omega

theorem Done.step {img cur : List Nat} {n : Nat} (h : Done img n cur)
    (hn : n * 3 + 3 ≤ img.length) : Done img (n + 1) (pixelUpdate cur (n * 3)) := by
  obtain ⟨hl, hb⟩ := h
  refine ⟨by rw [length_pixelUpdate, hl], fun j => ?_⟩
  rw [byteAt_pixelUpdate cur n j (by omega)]
  have hg : grayAt cur n = grayAt img n := by
    unfold grayAt
    rw [hb (n * 3 + 2), hb (n * 3 + 1), hb (n * 3)]
    simp
  by_cases h1 : n * 3 ≤ j ∧ j < n * 3 + 3
  · have h2 : j / 3 = n := by omega
    have h3 : j < (n + 1) * 3 := by omega
    simp [h1, h3, h2, hg]
  · rw [if_neg h1, hb j]
    by_cases h4 : j < n * 3
    · have h3 : j < (n + 1) * 3 := by omega
      simp [h4, h3]
    · have h3 : ¬ j < (n + 1) * 3 := by omega
      simp [h4, h3]

/-- Inside the buffer and below `2 ^ 31` the loop body is the update of pixel
`y * width + x`. -/
theorem loopBody_eq (width : Nat) (img : List Nat) (y x : Nat)
    (hlen : (y * width + x) * 3 + 3 ≤ img.length) (hsz : (y * width + x) * 3 < 2 ^ 31) :
    loopBody width img y x = some (pixelUpdate img ((y * width + x) * 3)) := by
  have hi : (y * width + x) % 2 ^ 32 = y * width + x := Nat.mod_eq_of_lt (by omega)
  have hk : ((y * width + x) * 3) % 2 ^ 32 = (y * width + x) * 3 := Nat.mod_eq_of_lt (by omega)
  unfold loopBody
  simp only [hi, hk]
  rw [if_neg (by omega)]

theorem innerLoop_done (img : List Nat) (width y : Nat)
    (hlen : (y * width + width) * 3 ≤ img.length) (hsz : (y * width + width) * 3 < 2 ^ 31 + 3) :
    ∀ (n x : Nat) (cur : List Nat), x + n = width → Done img (y * width + x) cur →
      ∃ out, innerLoop width y n x cur = some out ∧ Done img (y * width + width) out := by
  intro n
  induction n with
  | zero =>
    intro x cur hx hd
    have : x = width := by omega
    subst this
    exact ⟨cur, rfl, hd⟩
  | succ n ih =>
    intro x cur hx hd
    have hb := loopBody_eq width cur y x (by rw [hd.1]; omega) (by omega)
    obtain ⟨out, ho, hdo⟩ := ih (x + 1) (pixelUpdate cur ((y * width + x) * 3)) (by omega)
      (hd.step (by omega))
    refine ⟨out, ?_, hdo⟩
    rw [innerLoop, hb]
    exact ho

theorem outerLoop_done (img : List Nat) (width height : Nat)
    (hlen : height * width * 3 ≤ img.length) (hsz : height * width * 3 < 2 ^ 31 + 3) :
    ∀ (n y : Nat) (cur : List Nat), y + n = height → Done img (y * width) cur →
      ∃ out, outerLoop width n y cur = some out ∧ Done img (height * width) out := by
  intro n
  induction n with
  | zero =>
    intro y cur hy hd
    have : y = height := by omega
    subst this
    exact ⟨cur, rfl, hd⟩
  | succ n ih =>
    intro y cur hy hd
    have hle : (y + 1) * width ≤ height * width := Nat.mul_le_mul_right _ (by omega)
    have he : y * width + width = (y + 1) * width := by ring
    obtain ⟨mid, hm, hdm⟩ := innerLoop_done img width y (by omega) (by omega) width 0 cur
      (by omega) (by simpa using hd)
    rw [he] at hdm
    obtain ⟨out, ho, hdo⟩ := ih (y + 1) mid (by omega) hdm
    refine ⟨out, ?_, hdo⟩
    rw [outerLoop, hm]
    exact ho

/-- The transform loop succeeds on a buffer of `width * height` pixels and
turns every pixel into its gray value. -/
theorem transform_done (width height : Nat) (img : List Nat)
    (hsz : width * height * 3 < 2 ^ 31) (hlen : img.length = width * height * 3) :
    ∃ out, transform width height img = some out ∧ out.length = img.length ∧
      ∀ j, j < img.length → byteAt out j = grayAt img (j / 3) := by
  have hc : height * width = width * height := Nat.mul_comm _ _
  obtain ⟨out, ho, hl, hb⟩ := outerLoop_done img width height (by rw [hc]; omega)
    (by rw [hc]; omega) height 0 img (by omega) ⟨rfl, fun j => by simp⟩
  refine ⟨out, ho, hl, fun j hj => ?_⟩
  rw [hb j, if_pos (by rw [hc]; omega)]

/-! ## Streams and `main` -/

theorem fread_full (buf : List Nat) (n : Nat) (a rest : List Nat) (hb : buf.length = n)
    (ha : a.length = n) : fread buf n (a ++ rest) = (a, rest) := by
  unfold fread
  have h1 : (a ++ rest).take n = a := by rw [← ha]; exact List.take_left' rfl
  have h2 : (a ++ rest).drop n = rest := by rw [← ha]; exact List.drop_left' rfl
  rw [h1, h2, List.drop_of_length_le (by omega)]
  simp

theorem length_alloc (junk : Nat → Nat) (n : Nat) : (alloc junk n).length = n := by
  simp [alloc]

theorem length_fread (buf : List Nat) (n : Nat) (fp : List Nat) (hb : buf.length = n) :
    (fread buf n fp).1.length = n := by
  simp only [fread, List.length_append, List.length_take, List.length_drop]
  omega

theorem main_eq (header common_info rest : List Nat) (u : Machine)
    (hh : header.length = 14) (hc : common_info.length = 40) :
    main (some (header ++ common_info ++ rest)) true u =
      if le16 (common_info.drop 14) ≠ 24 ∨ le32 (common_info.drop 16) % 2 ^ 16 ≠ 0
      then ⟨[], some 1⟩ else mainTail header common_info rest u := by
  have e1 : fread (alloc u.header HEADER_SIZE) HEADER_SIZE (header ++ common_info ++ rest)
      = (header, common_info ++ rest) := by
    rw [List.append_assoc]
    exact fread_full _ _ _ _ (length_alloc _ _) hh
  have e2 : fread (alloc u.common_info COMMON_INFO_SIZE) COMMON_INFO_SIZE (common_info ++ rest)
      = (common_info, rest) := fread_full _ _ _ _ (length_alloc _ _) hc
  unfold main mainTail imgRead remainRead
  simp only [e1, e2, fwrite]
  have t1 : header.take HEADER_SIZE = header := List.take_of_length_le (by rw [hh]; decide)
  have t2 : common_info.take COMMON_INFO_SIZE = common_info :=
    List.take_of_length_le (by rw [hc]; decide)
  have t3 : ∀ (b : List Nat) (n : Nat) (fp : List Nat), b.length = n →
      (fread b n fp).1.take n = (fread b n fp).1 := fun b n fp hb =>
    List.take_of_length_le (by rw [length_fread b n fp hb])
  simp only [t1, t2, List.nil_append, t3 _ _ _ (length_alloc _ _)]

theorem le32_lt (p : List Nat) : le32 p < 2 ^ 32 := by
  unfold le32
  exact Nat.mod_lt _ (by norm_num)

theorem remain_info_size_of_le (d : Nat) (h1 : 54 ≤ d) (h2 : d < 2 ^ 32) :
    remain_info_size d = d - 54 := by
  unfold remain_info_size toU32 HEADER_SIZE HEADER_END HEADER_STR COMMON_INFO_SIZE
  omega

theorem remain_info_size_of_lt (d : Nat) (h1 : d < 54) :
    remain_info_size d = d + 2 ^ 32 - 54 := by
  unfold remain_info_size toU32 HEADER_SIZE HEADER_END HEADER_STR COMMON_INFO_SIZE
  omega

theorem img_size_eq_mod (w h : Nat) : img_size w h = (w * h * 3) % 2 ^ 32 := by
  unfold img_size pix_num
  omega

theorem img_size_of_lt (w h : Nat) (hs : w * h * 3 < 2 ^ 32) : img_size w h = w * h * 3 := by
  rw [img_size_eq_mod, Nat.mod_eq_of_lt hs]

theorem fread_of_le (buf : List Nat) (n : Nat) (fp : List Nat) (hb : buf.length = n)
    (hn : n ≤ fp.length) : fread buf n fp = (fp.take n, fp.drop n) := by
  unfold fread
  rw [List.drop_of_length_le (by rw [List.length_take]; omega)]
  simp

theorem length_remainRead (header rest : List Nat) (u : Machine) :
    (remainRead header rest u).1.length = remain_info_size (le32 (header.drop 10)) :=
  length_fread _ _ _ (length_alloc _ _)

theorem length_imgRead (header common_info rest : List Nat) (u : Machine) :
    (imgRead header common_info rest u).1.length =
      img_size (le32 (common_info.drop 4)) (le32 (common_info.drop 8)) :=
  length_fread _ _ _ (length_alloc _ _)

theorem mainTail_status_ne_one (header common_info rest : List Nat) (u : Machine) :
    (mainTail header common_info rest u).status ≠ some 1 := by
  unfold mainTail killed
  split_ifs
  · simp
  · split <;> simp

/-- Without room on the stack for `remain_info` the run is ended at line 73. -/
theorem mainTail_of_stack_lt (header common_info rest : List Nat) (u : Machine)
    (hst : u.stack < remain_info_size (le32 (header.drop 10))) :
    mainTail header common_info rest u = killed := by
  unfold mainTail
  rw [if_pos hst]

/-- A run behind the validation that ends with status 0 was not ended at line
73 and has written the headers, the buffer `remain_info` and pixel bytes, in
this order. -/
theorem mainTail_of_status (header common_info rest : List Nat) (u : Machine)
    (hs : (mainTail header common_info rest u).status = some 0) :
    remain_info_size (le32 (header.drop 10)) ≤ u.stack ∧
      ∃ pix, (mainTail header common_info rest u).written =
        header ++ common_info ++ (remainRead header rest u).1 ++ pix := by
  unfold mainTail killed at hs ⊢
  by_cases hst : u.stack < remain_info_size (le32 (header.drop 10))
  · rw [if_pos hst] at hs; cases hs
  · rw [if_neg hst] at hs ⊢
    refine ⟨Nat.le_of_not_lt hst, ?_⟩
    split
    · rename_i ht; rw [ht] at hs; cases hs
    · exact ⟨_, rfl⟩

/-- With room on the stack for `remain_info` and below `2 ^ 31` bytes of pixel
data the run behind the validation ends with status 0, having written the
headers and the transformed buffer. -/
theorem mainTail_of_lt (header common_info rest : List Nat) (u : Machine)
    (hst : remain_info_size (le32 (header.drop 10)) ≤ u.stack)
    (hsz : le32 (common_info.drop 4) * le32 (common_info.drop 8) * 3 < 2 ^ 31) :
    ∃ out, transform (le32 (common_info.drop 4)) (le32 (common_info.drop 8))
        (imgRead header common_info rest u).1 = some out ∧
      out.length = le32 (common_info.drop 4) * le32 (common_info.drop 8) * 3 ∧
      mainTail header common_info rest u =
        ⟨header ++ common_info ++ (remainRead header rest u).1 ++ out, some 0⟩ := by
  have hi := img_size_of_lt (le32 (common_info.drop 4)) (le32 (common_info.drop 8)) (by omega)
  have hl := length_imgRead header common_info rest u
  rw [hi] at hl
  obtain ⟨out, ho, hlo, -⟩ := transform_done _ _ _ hsz hl
  refine ⟨out, ho, by rw [hlo, hl], ?_⟩
  unfold mainTail
  rw [if_neg (Nat.not_lt.2 hst), ho, hi]
  simp only [Run.mk.injEq, and_true, List.append_cancel_left_eq]
  exact List.take_of_length_le (by rw [hlo, hl])

theorem HEADER_SIZE_eq : HEADER_SIZE = 14 := rfl

theorem COMMON_INFO_SIZE_eq : COMMON_INFO_SIZE = 40 := rfl

/-- The validation of line 66 passes when bits-per-pixel is 24 and the
compression field is 0. -/
theorem valid_of_fields (common_info : List Nat) (hbpp : le16 (common_info.drop 14) = 24)
    (hcomp : le32 (common_info.drop 16) = 0) :
    ¬ (le16 (common_info.drop 14) ≠ 24 ∨ le32 (common_info.drop 16) % 2 ^ 16 ≠ 0) := by
  rw [hbpp, hcomp]
  decide

/-- A run on a valid header never ends with the error status. -/
theorem main_valid_status (header common_info rest : List Nat) (u : Machine)
    (hh : header.length = HEADER_SIZE) (hc : common_info.length = COMMON_INFO_SIZE)
    (hbpp : le16 (common_info.drop 14) = 24) (hcomp : le32 (common_info.drop 16) = 0) :
    (main (some (header ++ common_info ++ rest)) true u).status ≠ some 1 := by
  rw [main_eq header common_info rest u hh hc, if_neg (valid_of_fields _ hbpp hcomp)]
  exact mainTail_status_ne_one _ _ _ _

/-- A run on a valid header with room on the stack for `remain_info` and less
than `2 ^ 31` bytes of pixel data ends with status 0 and has written
`54 + remain_info_size + width * height * 3` bytes, however long the input
is. -/
theorem main_valid_run (header common_info rest : List Nat) (u : Machine)
    (hh : header.length = HEADER_SIZE) (hc : common_info.length = COMMON_INFO_SIZE)
    (hbpp : le16 (common_info.drop 14) = 24) (hcomp : le32 (common_info.drop 16) = 0)
    (hst : remain_info_size (le32 (header.drop 10)) ≤ u.stack)
    (hsz : le32 (common_info.drop 4) * le32 (common_info.drop 8) * 3 < 2 ^ 31) :
    (main (some (header ++ common_info ++ rest)) true u).status = some 0 ∧
      (main (some (header ++ common_info ++ rest)) true u).written.length =
        54 + remain_info_size (le32 (header.drop 10)) +
          le32 (common_info.drop 4) * le32 (common_info.drop 8) * 3 := by
  rw [main_eq header common_info rest u hh hc, if_neg (valid_of_fields _ hbpp hcomp)]
  obtain ⟨out, -, hl, he⟩ := mainTail_of_lt header common_info rest u hst hsz
  rw [he]
  refine ⟨rfl, ?_⟩
  simp only [List.length_append, length_remainRead, hl, hh, hc, HEADER_SIZE_eq,
    COMMON_INFO_SIZE_eq]

/-- A run on a complete, valid input: the headers and the remaining-info bytes
are copied and the pixel bytes replaced by the result of the transform loop. -/
theorem main_full (header common_info rem pix extra : List Nat) (u : Machine)
    (hh : header.length = HEADER_SIZE) (hc : common_info.length = COMMON_INFO_SIZE)
    (hbpp : le16 (common_info.drop 14) = 24) (hcomp : le32 (common_info.drop 16) = 0)
    (hr : rem.length = remain_info_size (le32 (header.drop 10))) (hst : rem.length ≤ u.stack)
    (hp : pix.length = le32 (common_info.drop 4) * le32 (common_info.drop 8) * 3)
    (hsz : le32 (common_info.drop 4) * le32 (common_info.drop 8) * 3 < 2 ^ 31) :
    ∃ out, transform (le32 (common_info.drop 4)) (le32 (common_info.drop 8)) pix = some out ∧
      main (some (header ++ common_info ++ (rem ++ pix ++ extra))) true u =
        ⟨header ++ common_info ++ rem ++ out, some 0⟩ := by
  rw [main_eq header common_info _ u hh hc, if_neg (valid_of_fields _ hbpp hcomp)]
  obtain ⟨out, ho, -, he⟩ := mainTail_of_lt header common_info (rem ++ pix ++ extra) u
    (by rw [← hr]; exact hst) hsz
  have e3 : remainRead header (rem ++ pix ++ extra) u = (rem, pix ++ extra) := by
    unfold remainRead
    rw [List.append_assoc]
    exact fread_full _ _ _ _ (length_alloc _ _) hr
  have e4 : imgRead header common_info (rem ++ pix ++ extra) u = (pix, extra) := by
    unfold imgRead
    rw [e3]
    exact fread_full _ _ _ _ (length_alloc _ _) (by rw [hp, img_size_of_lt _ _ (by omega)])
  rw [e4] at ho
  rw [e3] at he
  exact ⟨out, ho, he⟩

/-! ## The pixel loop keeps the size of the buffer -/

theorem loopBody_length {width y x : Nat} {img out : List Nat}
    (h : loopBody width img y x = some out) : out.length = img.length := by
  unfold loopBody at h
  simp only [] at h
  split_ifs at h
  cases h
  exact length_pixelUpdate _ _

theorem innerLoop_length (width y : Nat) :
    ∀ (n x : Nat) (img out : List Nat), innerLoop width y n x img = some out →
      out.length = img.length := by
  intro n
  induction n with
  | zero =>
    intro x img out h
    cases h
    rfl
  | succ n ih =>
    intro x img out h
    rw [innerLoop] at h
    cases hb : loopBody width img y x with
    | none => rw [hb] at h; cases h
    | some img1 =>
      rw [hb] at h
      rw [ih _ _ _ h, loopBody_length hb]

theorem outerLoop_length (width : Nat) :
    ∀ (n y : Nat) (img out : List Nat), outerLoop width n y img = some out →
      out.length = img.length := by
  intro n
  induction n with
  | zero =>
    intro y img out h
    cases h
    rfl
  | succ n ih =>
    intro y img out h
    rw [outerLoop] at h
    cases hb : innerLoop width y width 0 img with
    | none => rw [hb] at h; cases h
    | some img1 =>
      rw [hb] at h
      rw [ih _ _ _ h, innerLoop_length _ _ _ _ _ _ hb]

theorem transform_length {width height : Nat} {img out : List Nat}
    (h : transform width height img = some out) : out.length = img.length :=
  outerLoop_length width height 0 img out h

/-- A run behind the validation that ends with status 0 has written the two
headers, `remain_info_size` bytes and `img_size` bytes. -/
theorem mainTail_written_length (header common_info rest : List Nat) (u : Machine)
    (hs : (mainTail header common_info rest u).status = some 0) :
    (mainTail header common_info rest u).written.length =
      header.length + common_info.length + remain_info_size (le32 (header.drop 10)) +
        img_size (le32 (common_info.drop 4)) (le32 (common_info.drop 8)) := by
  unfold mainTail killed at hs ⊢
  by_cases hst : u.stack < remain_info_size (le32 (header.drop 10))
  · rw [if_pos hst] at hs; cases hs
  · rw [if_neg hst] at hs ⊢
    cases ht : transform (le32 (common_info.drop 4)) (le32 (common_info.drop 8))
        (imgRead header common_info rest u).1 with
    | none => rw [ht] at hs; cases hs
    | some out =>
      have hl := transform_length ht
      rw [length_imgRead] at hl
      simp only [List.length_append, List.length_take, length_remainRead, hl, Nat.min_self]

/-! ## Luma test vectors -/

/-- C10: `grayscale` returns 255 for white `(255,255,255)`, 0 for black
`(0,0,0)` and 77 for pure red `(255,0,0)`. -/
theorem grayscale_test_vectors :
    grayscale 255 255 255 = 255 ∧ grayscale 0 0 0 = 0 ∧ grayscale 255 0 0 = 77 := by
  decide

/-! ## The pixel transform -/

/-- C1: for `width * height * 3 < 2 ^ 31` and a buffer of exactly
`width * height * 3` bytes, the transform loop of `main` ends, and afterwards
the three bytes of every pixel `i < width * height` are equal to each other and
to `(77 * r + 150 * g + 29 * b + 128) >> 8`, where `b`, `g`, `r` are the bytes
of the input buffer at offsets `3 * i`, `3 * i + 1`, `3 * i + 2`. -/
theorem transform_pixels (width height : Nat) (img : List Nat)
    (hsz : width * height * 3 < 2 ^ 31) (hlen : img.length = width * height * 3)
    (hb : IsBytes img) :
    ∃ out, transform width height img = some out ∧ out.length = img.length ∧
      ∀ i, i < width * height →
        byteAt out (3 * i) = (77 * byteAt img (3 * i + 2) + 150 * byteAt img (3 * i + 1)
          + 29 * byteAt img (3 * i) + 128) >>> 8 ∧
        byteAt out (3 * i + 1) = byteAt out (3 * i) ∧
        byteAt out (3 * i + 2) = byteAt out (3 * i) := by
  obtain ⟨out, ho, hl, hg⟩ := transform_done width height img hsz hlen
  refine ⟨out, ho, hl, fun i hi => ?_⟩
  have e0 : 3 * i / 3 = i := by omega
  have e1 : (3 * i + 1) / 3 = i := by omega
  have e2 : (3 * i + 2) / 3 = i := by omega
  rw [hg (3 * i) (by omega), hg (3 * i + 1) (by omega), hg (3 * i + 2) (by omega), e0, e1, e2]
  refine ⟨?_, rfl, rfl⟩
  unfold grayAt
  rw [grayscale_eq _ _ _ (byteAt_lt_of_isBytes hb _) (byteAt_lt_of_isBytes hb _)
    (byteAt_lt_of_isBytes hb _), Nat.mul_comm i 3]

/-- Witness of C1 on the 2x1 image red, white. -/
theorem transform_pixels_witness :
    ∃ out, transform 2 1 [0, 0, 255, 255, 255, 255] = some out ∧
      out.length = [0, 0, 255, 255, 255, 255].length ∧
      ∀ i, i < 2 * 1 →
        byteAt out (3 * i) = (77 * byteAt [0, 0, 255, 255, 255, 255] (3 * i + 2)
          + 150 * byteAt [0, 0, 255, 255, 255, 255] (3 * i + 1)
          + 29 * byteAt [0, 0, 255, 255, 255, 255] (3 * i) + 128) >>> 8 ∧
        byteAt out (3 * i + 1) = byteAt out (3 * i) ∧
        byteAt out (3 * i + 2) = byteAt out (3 * i) :=
  transform_pixels 2 1 [0, 0, 255, 255, 255, 255] (by decide) (by decide)
    (by unfold IsBytes; decide)

/-- C2: for `width * height * 3 < 2 ^ 31` and a buffer of
`width * height * 3` bytes, running the transform loop on its own result gives
that result again; and `grayscale y y y = y` for every byte `y`. -/
theorem transform_idempotent (width height : Nat) (img : List Nat)
    (hsz : width * height * 3 < 2 ^ 31) (hlen : img.length = width * height * 3) :
    (∃ out, transform width height img = some out ∧ transform width height out = some out) ∧
      ∀ y, y < 256 → grayscale y y y = y := by
  refine ⟨?_, grayscale_gray⟩
  obtain ⟨out, ho, hl, hg⟩ := transform_done width height img hsz hlen
  obtain ⟨out2, ho2, hl2, hg2⟩ := transform_done width height out hsz (by rw [hl, hlen])
  refine ⟨out, ho, ?_⟩
  rw [ho2]
  congr 1
  apply ext_byteAt hl2
  intro j hj
  rw [hl2] at hj
  rw [hg2 j hj]
  have hj3 : j / 3 * 3 + 2 < img.length := by omega
  unfold grayAt
  rw [hg (j / 3 * 3 + 2) hj3, hg (j / 3 * 3 + 1) (by omega), hg (j / 3 * 3) (by omega),
    hg j (by omega)]
  have e0 : j / 3 * 3 / 3 = j / 3 := by omega
  have e1 : (j / 3 * 3 + 1) / 3 = j / 3 := by omega
  have e2 : (j / 3 * 3 + 2) / 3 = j / 3 := by omega
  rw [e0, e1, e2]
  exact grayscale_gray _ (grayscale_lt _ _ _)

/-- Witness of C2 on the 2x1 image red, white. -/
theorem transform_idempotent_witness :
    (∃ out, transform 2 1 [0, 0, 255, 255, 255, 255] = some out ∧
      transform 2 1 out = some out) ∧ ∀ y, y < 256 → grayscale y y y = y :=
  transform_idempotent 2 1 [0, 0, 255, 255, 255, 255] (by decide) (by decide)


/-! ## Header passthrough and output size -/

/-- C3, counterexample: the 54-byte input with `width = height = 65536`.  It
has bits-per-pixel 24, compression 0, `data_offset = 54` and holds
`data_offset` bytes, but the run is ended in the pixel loop and leaves no
output: the first 54 bytes of the output are not those of the input. -/
theorem header_fidelity_counterexample :
    le16 ((sampleInfo [0, 0, 1, 0] [0, 0, 1, 0] [24, 0] [0, 0, 0, 0]).drop 14) = 24 ∧
    le32 ((sampleInfo [0, 0, 1, 0] [0, 0, 1, 0] [24, 0] [0, 0, 0, 0]).drop 16) = 0 ∧
    le32 ((sampleHeader [54, 0, 0, 0]).drop 10) = 54 ∧
    (sampleHeader [54, 0, 0, 0] ++
        sampleInfo [0, 0, 1, 0] [0, 0, 1, 0] [24, 0] [0, 0, 0, 0]).length = 54 ∧
    (main (some (sampleHeader [54, 0, 0, 0] ++
        sampleInfo [0, 0, 1, 0] [0, 0, 1, 0] [24, 0] [0, 0, 0, 0])) true sampleMachine).status =
      none ∧
    ((main (some (sampleHeader [54, 0, 0, 0] ++
        sampleInfo [0, 0, 1, 0] [0, 0, 1, 0] [24, 0] [0, 0, 0, 0])) true
        sampleMachine).written).take 54 ≠
      (sampleHeader [54, 0, 0, 0] ++
        sampleInfo [0, 0, 1, 0] [0, 0, 1, 0] [24, 0] [0, 0, 0, 0]).take 54 := by
  decide

/-- C3, amended: for an input of at least `data_offset` bytes with
bits-per-pixel 24, compression 0 and `data_offset ≥ 54` whose run ends with
status 0, the output starts with the 14-byte file header, the 40-byte info
header and the `data_offset - 54` remaining-info bytes, in that order and ahead
of every pixel byte, and these are the first `data_offset` bytes of the
input. -/
theorem header_fidelity (header common_info rest : List Nat) (u : Machine)
    (hh : header.length = HEADER_SIZE) (hc : common_info.length = COMMON_INFO_SIZE)
    (hbpp : le16 (common_info.drop 14) = 24) (hcomp : le32 (common_info.drop 16) = 0)
    (hoff : HEADER_SIZE + COMMON_INFO_SIZE ≤ le32 (header.drop 10))
    (hlen : le32 (header.drop 10) ≤ (header ++ common_info ++ rest).length)
    (hs : (main (some (header ++ common_info ++ rest)) true u).status = some 0) :
    (∃ pix, (main (some (header ++ common_info ++ rest)) true u).written =
        header ++ common_info ++ rest.take (le32 (header.drop 10) - 54) ++ pix) ∧
      ((main (some (header ++ common_info ++ rest)) true u).written).take
          (le32 (header.drop 10)) =
        (header ++ common_info ++ rest).take (le32 (header.drop 10)) := by
  rw [HEADER_SIZE_eq, COMMON_INFO_SIZE_eq] at hoff
  have hd := remain_info_size_of_le _ hoff (le32_lt _)
  simp only [List.length_append, hh, hc, HEADER_SIZE_eq, COMMON_INFO_SIZE_eq] at hlen
  have e3 : (remainRead header rest u).1 = rest.take (le32 (header.drop 10) - 54) := by
    unfold remainRead
    rw [fread_of_le _ _ _ (length_alloc _ _) (by rw [hd]; omega), hd]
  rw [main_eq header common_info rest u hh hc, if_neg (valid_of_fields _ hbpp hcomp)] at hs ⊢
  obtain ⟨-, pix, hp⟩ := mainTail_of_status header common_info rest u hs
  rw [hp, e3]
  have hl : (header ++ common_info ++ rest.take (le32 (header.drop 10) - 54)).length =
      le32 (header.drop 10) := by
    simp only [List.length_append, List.length_take, hh, hc, HEADER_SIZE_eq, COMMON_INFO_SIZE_eq]
    omega
  have hpre : (header ++ common_info ++ rest).take (le32 (header.drop 10)) =
      header ++ common_info ++ rest.take (le32 (header.drop 10) - 54) := by
    rw [List.take_append_eq_append_take]
    have h1 : (header ++ common_info).length = 54 := by
      simp [hh, hc, HEADER_SIZE_eq, COMMON_INFO_SIZE_eq]
    rw [h1, List.take_of_length_le (by omega)]
  refine ⟨⟨pix, rfl⟩, ?_⟩
  rw [hpre, List.take_append_eq_append_take, hl, Nat.sub_self, List.take_zero,
    List.append_nil, List.take_of_length_le (by omega)]

/-- Witness of C3 (amended): a 1x1 image with two remaining-info bytes,
`data_offset = 56`. -/
theorem header_fidelity_witness :
    (∃ pix, (main (some (sampleHeader [56, 0, 0, 0] ++
          sampleInfo [1, 0, 0, 0] [1, 0, 0, 0] [24, 0] [0, 0, 0, 0] ++ [9, 8, 1, 2, 3]))
          true sampleMachine).written =
        sampleHeader [56, 0, 0, 0] ++ sampleInfo [1, 0, 0, 0] [1, 0, 0, 0] [24, 0] [0, 0, 0, 0] ++
          [9, 8, 1, 2, 3].take (le32 ((sampleHeader [56, 0, 0, 0]).drop 10) - 54) ++ pix) ∧
      ((main (some (sampleHeader [56, 0, 0, 0] ++
          sampleInfo [1, 0, 0, 0] [1, 0, 0, 0] [24, 0] [0, 0, 0, 0] ++ [9, 8, 1, 2, 3]))
          true sampleMachine).written).take (le32 ((sampleHeader [56, 0, 0, 0]).drop 10)) =
        (sampleHeader [56, 0, 0, 0] ++ sampleInfo [1, 0, 0, 0] [1, 0, 0, 0] [24, 0] [0, 0, 0, 0] ++
          [9, 8, 1, 2, 3]).take (le32 ((sampleHeader [56, 0, 0, 0]).drop 10)) :=
  header_fidelity (sampleHeader [56, 0, 0, 0])
    (sampleInfo [1, 0, 0, 0] [1, 0, 0, 0] [24, 0] [0, 0, 0, 0]) [9, 8, 1, 2, 3] sampleMachine
    (by decide) (by decide) (by decide) (by decide) (by decide) (by decide) (by decide)

/-- C4, counterexample: a 1x1 image whose single row is padded to four bytes,
as the BMP format has it.  The input has 58 bytes, all headers are valid and
all pixel data is there; the program writes 57 bytes. -/
theorem size_preservation_counterexample :
    le16 ((sampleInfo [1, 0, 0, 0] [1, 0, 0, 0] [24, 0] [0, 0, 0, 0]).drop 14) = 24 ∧
    le32 ((sampleInfo [1, 0, 0, 0] [1, 0, 0, 0] [24, 0] [0, 0, 0, 0]).drop 16) = 0 ∧
    54 ≤ le32 ((sampleHeader [54, 0, 0, 0]).drop 10) ∧
    le32 ((sampleHeader [54, 0, 0, 0]).drop 10) + 1 * 1 * 3 ≤
      (sampleHeader [54, 0, 0, 0] ++ sampleInfo [1, 0, 0, 0] [1, 0, 0, 0] [24, 0] [0, 0, 0, 0] ++
        [10, 20, 30, 0]).length ∧
    (sampleHeader [54, 0, 0, 0] ++ sampleInfo [1, 0, 0, 0] [1, 0, 0, 0] [24, 0] [0, 0, 0, 0] ++
        [10, 20, 30, 0]).length = 58 ∧
    (main (some (sampleHeader [54, 0, 0, 0] ++
        sampleInfo [1, 0, 0, 0] [1, 0, 0, 0] [24, 0] [0, 0, 0, 0] ++ [10, 20, 30, 0]))
        true sampleMachine).written.length = 57 := by
  decide

/-- C4, amended: for an input of at least 54 bytes with bits-per-pixel 24,
compression 0, `data_offset ≥ 54`, room on the stack for the
`data_offset - 54` bytes of `remain_info` and `width * height * 3 < 2 ^ 31`,
the program ends with status 0 and writes exactly
`data_offset + width * height * 3` bytes; the output has the size of the input
exactly when the input has that many bytes. -/
theorem output_size (header common_info rest : List Nat) (u : Machine)
    (hh : header.length = HEADER_SIZE) (hc : common_info.length = COMMON_INFO_SIZE)
    (hbpp : le16 (common_info.drop 14) = 24) (hcomp : le32 (common_info.drop 16) = 0)
    (hoff : HEADER_SIZE + COMMON_INFO_SIZE ≤ le32 (header.drop 10))
    (hst : le32 (header.drop 10) - (HEADER_SIZE + COMMON_INFO_SIZE) ≤ u.stack)
    (hsz : le32 (common_info.drop 4) * le32 (common_info.drop 8) * 3 < 2 ^ 31) :
    (main (some (header ++ common_info ++ rest)) true u).status = some 0 ∧
      (main (some (header ++ common_info ++ rest)) true u).written.length =
        le32 (header.drop 10) + le32 (common_info.drop 4) * le32 (common_info.drop 8) * 3 ∧
      ((main (some (header ++ common_info ++ rest)) true u).written.length =
          (header ++ common_info ++ rest).length ↔
        (header ++ common_info ++ rest).length =
          le32 (header.drop 10) + le32 (common_info.drop 4) * le32 (common_info.drop 8) * 3) := by
  rw [HEADER_SIZE_eq, COMMON_INFO_SIZE_eq] at hoff hst
  have hd := remain_info_size_of_le _ hoff (le32_lt _)
  obtain ⟨hs, hl⟩ := main_valid_run header common_info rest u hh hc hbpp hcomp
    (by rw [hd]; exact hst) hsz
  rw [hd] at hl
  have hl2 : (main (some (header ++ common_info ++ rest)) true u).written.length =
      le32 (header.drop 10) + le32 (common_info.drop 4) * le32 (common_info.drop 8) * 3 := by
    rw [hl]; omega
  refine ⟨hs, hl2, ?_⟩
  rw [hl2]
  exact eq_comm

/-- Witness of C4 (amended): the 60-byte 2x1 image. -/
theorem output_size_witness :
    (main (some (sampleHeader [54, 0, 0, 0] ++
        sampleInfo [2, 0, 0, 0] [1, 0, 0, 0] [24, 0] [0, 0, 0, 0] ++ [0, 0, 255, 255, 255, 255]))
        true sampleMachine).written.length = 60 :=
  (output_size (sampleHeader [54, 0, 0, 0])
    (sampleInfo [2, 0, 0, 0] [1, 0, 0, 0] [24, 0] [0, 0, 0, 0]) [0, 0, 255, 255, 255, 255]
    sampleMachine (by decide) (by decide) (by decide) (by decide) (by decide) (by decide)
    (by decide)).2.1

/-! ## Validation -/

/-- C5, the code at the failing input: the compression field holds
`0x00010000`, yet the run ends with status 0 and has written all 57 bytes of
the output. -/
theorem wide_compression_accepted :
    le32 ((sampleInfo [1, 0, 0, 0] [1, 0, 0, 0] [24, 0] [0, 0, 1, 0]).drop 16) = 65536 ∧
    main (some (sampleHeader [54, 0, 0, 0] ++
        sampleInfo [1, 0, 0, 0] [1, 0, 0, 0] [24, 0] [0, 0, 1, 0] ++ [1, 2, 3]))
        true sampleMachine =
      ⟨sampleHeader [54, 0, 0, 0] ++ sampleInfo [1, 0, 0, 0] [1, 0, 0, 0] [24, 0] [0, 0, 1, 0] ++
        [2, 2, 2], some 0⟩ := by
  decide

/-- C6, counterexample: with `data_offset = 53` the program does not fail with
an error.  It takes `remain_info_size` to be `2 ^ 32 - 1` and makes the array
of line 73 that large: where the stack has room for it the run ends with
status 0, and on a stack with room for 4 MiB the run is ended by a signal at
line 73, not by the error return of line 69. -/
theorem malformed_header_counterexample :
    le32 ((sampleHeader [53, 0, 0, 0]).drop 10) < 54 ∧
    remain_info_size (le32 ((sampleHeader [53, 0, 0, 0]).drop 10)) = 4294967295 ∧
    (main (some (sampleHeader [53, 0, 0, 0] ++
        sampleInfo [0, 0, 0, 0] [0, 0, 0, 0] [24, 0] [0, 0, 0, 0])) true
        bigStackMachine).status = some 0 ∧
    main (some (sampleHeader [53, 0, 0, 0] ++
        sampleInfo [0, 0, 0, 0] [0, 0, 0, 0] [24, 0] [0, 0, 0, 0])) true sampleMachine =
      killed := by
  decide

/-- C6, amended: the program does not check `data_offset`.  An input of at
least 54 bytes with bits-per-pixel 24 and compression 0 never ends with the
error status 1, whatever its `data_offset`; `remain_info_size` is
`data_offset - 54` when `data_offset ≥ 54` and wraps to
`data_offset + 2 ^ 32 - 54` when `data_offset < 54`.  The array of line 73 is
made with that size: without room for it on the stack the run is ended there
by a signal, with room for it and `width * height * 3 < 2 ^ 31` the run ends
with status 0. -/
theorem data_offset_unchecked (header common_info rest : List Nat) (u : Machine)
    (hh : header.length = HEADER_SIZE) (hc : common_info.length = COMMON_INFO_SIZE)
    (hbpp : le16 (common_info.drop 14) = 24) (hcomp : le32 (common_info.drop 16) = 0) :
    (main (some (header ++ common_info ++ rest)) true u).status ≠ some 1 ∧
      (HEADER_SIZE + COMMON_INFO_SIZE ≤ le32 (header.drop 10) →
        remain_info_size (le32 (header.drop 10)) = le32 (header.drop 10) - 54) ∧
      (le32 (header.drop 10) < HEADER_SIZE + COMMON_INFO_SIZE →
        remain_info_size (le32 (header.drop 10)) = le32 (header.drop 10) + 2 ^ 32 - 54) ∧
      (u.stack < remain_info_size (le32 (header.drop 10)) →
        main (some (header ++ common_info ++ rest)) true u = killed) ∧
      (remain_info_size (le32 (header.drop 10)) ≤ u.stack →
        le32 (common_info.drop 4) * le32 (common_info.drop 8) * 3 < 2 ^ 31 →
        (main (some (header ++ common_info ++ rest)) true u).status = some 0) := by
  refine ⟨main_valid_status header common_info rest u hh hc hbpp hcomp, fun h => ?_, fun h => ?_,
    fun h => ?_, fun h1 h2 => ?_⟩
  · rw [HEADER_SIZE_eq, COMMON_INFO_SIZE_eq] at h
    exact remain_info_size_of_le _ h (le32_lt _)
  · rw [HEADER_SIZE_eq, COMMON_INFO_SIZE_eq] at h
    exact remain_info_size_of_lt _ h
  · rw [main_eq header common_info rest u hh hc, if_neg (valid_of_fields _ hbpp hcomp)]
    exact mainTail_of_stack_lt _ _ _ _ h
  · exact (main_valid_run header common_info rest u hh hc hbpp hcomp h1 h2).1

/-- Witness of C6 (amended): `data_offset = 10`. -/
theorem data_offset_unchecked_witness :
    (main (some (sampleHeader [10, 0, 0, 0] ++
        sampleInfo [0, 0, 0, 0] [0, 0, 0, 0] [24, 0] [0, 0, 0, 0] ++ [7])) true
        sampleMachine).status ≠ some 1 :=
  (data_offset_unchecked (sampleHeader [10, 0, 0, 0])
    (sampleInfo [0, 0, 0, 0] [0, 0, 0, 0] [24, 0] [0, 0, 0, 0]) [7] sampleMachine
    (by decide) (by decide) (by decide) (by decide)).1

/-- C7, counterexample: a valid 54-byte header of a 1x1 image with no pixel
byte behind it.  The input has fewer than `data_offset + 3` bytes and the run
ends with status 0. -/
theorem truncated_input_counterexample :
    le16 ((sampleInfo [1, 0, 0, 0] [1, 0, 0, 0] [24, 0] [0, 0, 0, 0]).drop 14) = 24 ∧
    le32 ((sampleInfo [1, 0, 0, 0] [1, 0, 0, 0] [24, 0] [0, 0, 0, 0]).drop 16) = 0 ∧
    54 ≤ le32 ((sampleHeader [54, 0, 0, 0]).drop 10) ∧
    (sampleHeader [54, 0, 0, 0] ++
        sampleInfo [1, 0, 0, 0] [1, 0, 0, 0] [24, 0] [0, 0, 0, 0]).length <
      le32 ((sampleHeader [54, 0, 0, 0]).drop 10) + 1 * 1 * 3 ∧
    (main (some (sampleHeader [54, 0, 0, 0] ++
        sampleInfo [1, 0, 0, 0] [1, 0, 0, 0] [24, 0] [0, 0, 0, 0])) true sampleMachine).status =
      some 0 := by
  decide

/-- C7, amended: for an input of at least 54 bytes with bits-per-pixel 24,
compression 0, `data_offset ≥ 54`, room on the stack for the
`data_offset - 54` bytes of `remain_info` and `width * height * 3 < 2 ^ 31`
that has fewer than `data_offset + width * height * 3` bytes, the short reads
go unnoticed: the program ends with status 0 and still writes
`data_offset + width * height * 3` bytes. -/
theorem truncation_unnoticed (header common_info rest : List Nat) (u : Machine)
    (hh : header.length = HEADER_SIZE) (hc : common_info.length = COMMON_INFO_SIZE)
    (hbpp : le16 (common_info.drop 14) = 24) (hcomp : le32 (common_info.drop 16) = 0)
    (hoff : HEADER_SIZE + COMMON_INFO_SIZE ≤ le32 (header.drop 10))
    (hst : le32 (header.drop 10) - (HEADER_SIZE + COMMON_INFO_SIZE) ≤ u.stack)
    (hsz : le32 (common_info.drop 4) * le32 (common_info.drop 8) * 3 < 2 ^ 31)
    (_htr : (header ++ common_info ++ rest).length <
      le32 (header.drop 10) + le32 (common_info.drop 4) * le32 (common_info.drop 8) * 3) :
    (main (some (header ++ common_info ++ rest)) true u).status = some 0 ∧
      (main (some (header ++ common_info ++ rest)) true u).written.length =
        le32 (header.drop 10) + le32 (common_info.drop 4) * le32 (common_info.drop 8) * 3 := by
  rw [HEADER_SIZE_eq, COMMON_INFO_SIZE_eq] at hoff hst
  have hd := remain_info_size_of_le _ hoff (le32_lt _)
  obtain ⟨hs, hl⟩ := main_valid_run header common_info rest u hh hc hbpp hcomp
    (by rw [hd]; exact hst) hsz
  rw [hd] at hl
  exact ⟨hs, by rw [hl]; omega⟩

/-- Witness of C7 (amended): a 2x1 image cut off in the middle of its second
pixel. -/
theorem truncation_unnoticed_witness :
    (main (some (sampleHeader [54, 0, 0, 0] ++
        sampleInfo [2, 0, 0, 0] [1, 0, 0, 0] [24, 0] [0, 0, 0, 0] ++ [0, 0, 255, 255]))
        true sampleMachine).status = some 0 ∧
      (main (some (sampleHeader [54, 0, 0, 0] ++
        sampleInfo [2, 0, 0, 0] [1, 0, 0, 0] [24, 0] [0, 0, 0, 0] ++ [0, 0, 255, 255]))
        true sampleMachine).written.length =
        le32 ((sampleHeader [54, 0, 0, 0]).drop 10) +
          le32 ((sampleInfo [2, 0, 0, 0] [1, 0, 0, 0] [24, 0] [0, 0, 0, 0]).drop 4) *
            le32 ((sampleInfo [2, 0, 0, 0] [1, 0, 0, 0] [24, 0] [0, 0, 0, 0]).drop 8) * 3 :=
  truncation_unnoticed (sampleHeader [54, 0, 0, 0])
    (sampleInfo [2, 0, 0, 0] [1, 0, 0, 0] [24, 0] [0, 0, 0, 0]) [0, 0, 255, 255] sampleMachine
    (by decide) (by decide) (by decide) (by decide) (by decide) (by decide) (by decide)
    (by decide)

/-! ## The pixel buffer size -/

/-- C8, counterexample: `width = height = 65536`.  The header is valid and the
program does not reject it (the status is not 1); the pixel buffer has
`img_size = 0` bytes, not `65536 * 65536 * 3`, and the loop leaves it at once,
which ends the run. -/
theorem buffer_size_counterexample :
    le32 ((sampleInfo [0, 0, 1, 0] [0, 0, 1, 0] [24, 0] [0, 0, 0, 0]).drop 4) = 65536 ∧
    le32 ((sampleInfo [0, 0, 1, 0] [0, 0, 1, 0] [24, 0] [0, 0, 0, 0]).drop 8) = 65536 ∧
    main (some (sampleHeader [54, 0, 0, 0] ++
        sampleInfo [0, 0, 1, 0] [0, 0, 1, 0] [24, 0] [0, 0, 0, 0])) true sampleMachine =
      killed ∧
    img_size 65536 65536 = 0 ∧ 65536 * 65536 * 3 ≠ 0 := by
  decide

/-- C8, amended: an input of at least 54 bytes with bits-per-pixel 24 and
compression 0 is never rejected on account of `width` and `height`; the pixel
buffer that is read has `(width * height * 3) mod 2 ^ 32` bytes, as many are
written when the run ends with status 0, and that is exactly
`width * height * 3` whenever the product is below `2 ^ 32`. -/
theorem buffer_size (header common_info rest : List Nat) (u : Machine)
    (hh : header.length = HEADER_SIZE) (hc : common_info.length = COMMON_INFO_SIZE)
    (hbpp : le16 (common_info.drop 14) = 24) (hcomp : le32 (common_info.drop 16) = 0) :
    (main (some (header ++ common_info ++ rest)) true u).status ≠ some 1 ∧
      (imgRead header common_info rest u).1.length =
        (le32 (common_info.drop 4) * le32 (common_info.drop 8) * 3) % 2 ^ 32 ∧
      ((main (some (header ++ common_info ++ rest)) true u).status = some 0 →
        (main (some (header ++ common_info ++ rest)) true u).written.length =
          54 + remain_info_size (le32 (header.drop 10)) +
            (le32 (common_info.drop 4) * le32 (common_info.drop 8) * 3) % 2 ^ 32) ∧
      (le32 (common_info.drop 4) * le32 (common_info.drop 8) * 3 < 2 ^ 32 →
        (le32 (common_info.drop 4) * le32 (common_info.drop 8) * 3) % 2 ^ 32 =
          le32 (common_info.drop 4) * le32 (common_info.drop 8) * 3) := by
  have hl := length_imgRead header common_info rest u
  refine ⟨main_valid_status header common_info rest u hh hc hbpp hcomp, ?_, fun h => ?_,
    fun h => Nat.mod_eq_of_lt h⟩
  · rw [hl, img_size_eq_mod]
  · rw [main_eq header common_info rest u hh hc, if_neg (valid_of_fields _ hbpp hcomp)] at h ⊢
    rw [mainTail_written_length _ _ _ _ h, img_size_eq_mod, hh, hc, HEADER_SIZE_eq,
      COMMON_INFO_SIZE_eq]

/-- Witness of C8 (amended): the 2x1 image. -/
theorem buffer_size_witness :
    (imgRead (sampleHeader [54, 0, 0, 0])
        (sampleInfo [2, 0, 0, 0] [1, 0, 0, 0] [24, 0] [0, 0, 0, 0]) [0, 0, 255, 255, 255, 255]
        sampleMachine).1.length =
      (le32 ((sampleInfo [2, 0, 0, 0] [1, 0, 0, 0] [24, 0] [0, 0, 0, 0]).drop 4) *
        le32 ((sampleInfo [2, 0, 0, 0] [1, 0, 0, 0] [24, 0] [0, 0, 0, 0]).drop 8) * 3) % 2 ^ 32 :=
  (buffer_size (sampleHeader [54, 0, 0, 0])
    (sampleInfo [2, 0, 0, 0] [1, 0, 0, 0] [24, 0] [0, 0, 0, 0]) [0, 0, 255, 255, 255, 255]
    sampleMachine (by decide) (by decide) (by decide) (by decide)).2.1

/-! ## End to end -/

/-- C9: on the 60-byte input made of a 14-byte file header with
`data_offset = 54`, a 40-byte info header with width 2, height 1,
bits-per-pixel 24 and compression 0, and the pixel bytes
`[0,0,255, 255,255,255]`, the program returns status 0 and writes the same 54
header bytes followed by `[77,77,77, 255,255,255]`. -/
theorem end_to_end_example (header common_info : List Nat) (u : Machine)
    (hh : header.length = HEADER_SIZE) (hc : common_info.length = COMMON_INFO_SIZE)
    (hoff : le32 (header.drop 10) = 54)
    (hw : le32 (common_info.drop 4) = 2) (hht : le32 (common_info.drop 8) = 1)
    (hbpp : le16 (common_info.drop 14) = 24) (hcomp : le32 (common_info.drop 16) = 0) :
    main (some (header ++ common_info ++ [0, 0, 255, 255, 255, 255])) true u =
      ⟨header ++ common_info ++ [77, 77, 77, 255, 255, 255], some 0⟩ := by
  obtain ⟨out, ho, he⟩ := main_full header common_info [] [0, 0, 255, 255, 255, 255] [] u
    hh hc hbpp hcomp (by rw [hoff]; decide) (Nat.zero_le _) (by rw [hw, hht]; decide)
    (by rw [hw, hht]; decide)
  rw [hw, hht] at ho
  have h2 : transform 2 1 [0, 0, 255, 255, 255, 255] = some [77, 77, 77, 255, 255, 255] := by
    decide
  rw [h2] at ho
  cases ho
  simpa using he

/-- Witness of C9: the sample headers. -/
theorem end_to_end_example_witness :
    main (some (sampleHeader [54, 0, 0, 0] ++
        sampleInfo [2, 0, 0, 0] [1, 0, 0, 0] [24, 0] [0, 0, 0, 0] ++ [0, 0, 255, 255, 255, 255]))
        true sampleMachine =
      ⟨sampleHeader [54, 0, 0, 0] ++ sampleInfo [2, 0, 0, 0] [1, 0, 0, 0] [24, 0] [0, 0, 0, 0] ++
        [77, 77, 77, 255, 255, 255], some 0⟩ :=
  end_to_end_example (sampleHeader [54, 0, 0, 0])
    (sampleInfo [2, 0, 0, 0] [1, 0, 0, 0] [24, 0] [0, 0, 0, 0]) sampleMachine
    (by decide) (by decide) (by decide) (by decide) (by decide) (by decide) (by decide)

/-! ## Little-endian fields -/

theorem lor_shift (i a b : Nat) (ha : a < 2 ^ i) : a ||| (b <<< i) = a + 2 ^ i * b := by
  rw [Nat.shiftLeft_eq, Nat.lor_comm, Nat.mul_comm b, ← Nat.mul_add_lt_is_or ha]
  omega

theorem le16_eq (p : List Nat) (h0 : byteAt p 0 < 256) (h1 : byteAt p 1 < 256) :
    le16 p = byteAt p 0 + 256 * byteAt p 1 := by
  unfold le16
  rw [lor_shift 8 _ _ (by omega)]
  norm_num
  omega

theorem le32_eq (p : List Nat) (h0 : byteAt p 0 < 256) (h1 : byteAt p 1 < 256)
    (h2 : byteAt p 2 < 256) (h3 : byteAt p 3 < 256) :
    le32 p = byteAt p 0 + 256 * byteAt p 1 + 65536 * byteAt p 2 + 16777216 * byteAt p 3 := by
  unfold le32
  generalize byteAt p 0 = b0 at *
  generalize byteAt p 1 = b1 at *
  generalize byteAt p 2 = b2 at *
  generalize byteAt p 3 = b3 at *
  have e1 : (b1 <<< 8) % 2 ^ 32 = b1 <<< 8 := Nat.mod_eq_of_lt (by rw [Nat.shiftLeft_eq]; omega)
  have e2 : (b2 <<< 16) % 2 ^ 32 = b2 <<< 16 := Nat.mod_eq_of_lt (by rw [Nat.shiftLeft_eq]; omega)
  have e3 : (b3 <<< 24) % 2 ^ 32 = b3 <<< 24 := Nat.mod_eq_of_lt (by rw [Nat.shiftLeft_eq]; omega)
  rw [e1, e2, e3, lor_shift 8 _ _ (by omega), lor_shift 16 _ _ (by omega),
    lor_shift 24 _ _ (by omega)]
  norm_num
  omega

theorem byteAt_drop (l : List Nat) (k j : Nat) : byteAt (l.drop k) j = byteAt l (k + j) := by
  simp [byteAt, List.getD_eq_getElem?_getD, List.getElem?_drop]

theorem le32_drop (l : List Nat) (hb : IsBytes l) (k : Nat) :
    le32 (l.drop k) = byteAt l k + 256 * byteAt l (k + 1) + 65536 * byteAt l (k + 2)
      + 16777216 * byteAt l (k + 3) := by
  have h := le32_eq (l.drop k) (by rw [byteAt_drop]; exact byteAt_lt_of_isBytes hb _)
    (by rw [byteAt_drop]; exact byteAt_lt_of_isBytes hb _)
    (by rw [byteAt_drop]; exact byteAt_lt_of_isBytes hb _)
    (by rw [byteAt_drop]; exact byteAt_lt_of_isBytes hb _)
  simpa only [byteAt_drop, Nat.add_zero] using h

theorem le16_drop (l : List Nat) (hb : IsBytes l) (k : Nat) :
    le16 (l.drop k) = byteAt l k + 256 * byteAt l (k + 1) := by
  have h := le16_eq (l.drop k) (by rw [byteAt_drop]; exact byteAt_lt_of_isBytes hb _)
    (by rw [byteAt_drop]; exact byteAt_lt_of_isBytes hb _)
  simpa only [byteAt_drop, Nat.add_zero] using h

/-- On an input that holds both headers `main` is `mainFrom` at the values
read by lines 59-64. -/
theorem main_eq_mainFrom (header common_info rest : List Nat) (u : Machine)
    (hh : header.length = 14) (hc : common_info.length = 40) :
    main (some (header ++ common_info ++ rest)) true u =
      mainFrom (le32 (header.drop 10)) (le32 (common_info.drop 4)) (le32 (common_info.drop 8))
        (le16 (common_info.drop 14)) (le32 (common_info.drop 16) % 2 ^ 16)
        header common_info rest u := by
  have e1 : fread (alloc u.header HEADER_SIZE) HEADER_SIZE (header ++ common_info ++ rest)
      = (header, common_info ++ rest) := by
    rw [List.append_assoc]
    exact fread_full _ _ _ _ (length_alloc _ _) hh
  have e2 : fread (alloc u.common_info COMMON_INFO_SIZE) COMMON_INFO_SIZE (common_info ++ rest)
      = (common_info, rest) := fread_full _ _ _ _ (length_alloc _ _) hc
  unfold main mainFrom
  simp only [e1, e2]

/-- C12: for bytes `b0..b3`, `le32` returns
`b0 + 256*b1 + 65536*b2 + 16777216*b3` and `le16` returns `b0 + 256*b1`; and
`main` runs on `data_offset` decoded in this way from file-header bytes 10..13,
`width` from info-header bytes 4..7, `height` from info-header bytes 8..11 and
bits-per-pixel from info-header bytes 14..15. -/
theorem little_endian_fields (header common_info rest : List Nat) (u : Machine)
    (hh : header.length = HEADER_SIZE) (hc : common_info.length = COMMON_INFO_SIZE)
    (hbh : IsBytes header) (hbc : IsBytes common_info) :
    (∀ b0 b1 b2 b3 tl, b0 < 256 → b1 < 256 → b2 < 256 → b3 < 256 →
        le32 (b0 :: b1 :: b2 :: b3 :: tl) = b0 + 256 * b1 + 65536 * b2 + 16777216 * b3) ∧
      (∀ b0 b1 tl, b0 < 256 → b1 < 256 → le16 (b0 :: b1 :: tl) = b0 + 256 * b1) ∧
      main (some (header ++ common_info ++ rest)) true u =
        mainFrom
          (byteAt header 10 + 256 * byteAt header 11 + 65536 * byteAt header 12
            + 16777216 * byteAt header 13)
          (byteAt common_info 4 + 256 * byteAt common_info 5 + 65536 * byteAt common_info 6
            + 16777216 * byteAt common_info 7)
          (byteAt common_info 8 + 256 * byteAt common_info 9 + 65536 * byteAt common_info 10
            + 16777216 * byteAt common_info 11)
          (byteAt common_info 14 + 256 * byteAt common_info 15)
          (le32 (common_info.drop 16) % 2 ^ 16) header common_info rest u := by
  refine ⟨fun b0 b1 b2 b3 tl h0 h1 h2 h3 => le32_eq _ h0 h1 h2 h3,
    fun b0 b1 tl h0 h1 => le16_eq _ h0 h1, ?_⟩
  rw [main_eq_mainFrom header common_info rest u hh hc, le32_drop header hbh 10,
    le32_drop common_info hbc 4, le32_drop common_info hbc 8, le16_drop common_info hbc 14]

/-- Witness of C12: the 60-byte 2x1 image, whose decoded fields are
`data_offset = 54`, `width = 2`, `height = 1`, bits-per-pixel 24. -/
theorem little_endian_fields_witness :
    main (some (sampleHeader [54, 0, 0, 0] ++
        sampleInfo [2, 0, 0, 0] [1, 0, 0, 0] [24, 0] [0, 0, 0, 0] ++ [0, 0, 255, 255, 255, 255]))
        true sampleMachine =
      mainFrom 54 2 1 24 0 (sampleHeader [54, 0, 0, 0])
        (sampleInfo [2, 0, 0, 0] [1, 0, 0, 0] [24, 0] [0, 0, 0, 0]) [0, 0, 255, 255, 255, 255]
        sampleMachine :=
  (little_endian_fields (sampleHeader [54, 0, 0, 0])
    (sampleInfo [2, 0, 0, 0] [1, 0, 0, 0] [24, 0] [0, 0, 0, 0]) [0, 0, 255, 255, 255, 255]
    sampleMachine (by decide) (by decide) (by unfold IsBytes; decide)
    (by unfold IsBytes; decide)).2.2

/-! ## The compression variable -/

/-- C11: the check of line 66 sees the compression field through a 16-bit
variable: an input is accepted (the run does not end with status 1) if and
only if bits-per-pixel is 24 and the compression field is 0 modulo 65536, a
rejected input leaves no output, and an info header with bits-per-pixel 24 and
the compression code `0x00010000` is accepted. -/
theorem compression_field_width (header common_info rest : List Nat) (u : Machine)
    (hh : header.length = HEADER_SIZE) (hc : common_info.length = COMMON_INFO_SIZE) :
    ((main (some (header ++ common_info ++ rest)) true u).status ≠ some 1 ↔
        le16 (common_info.drop 14) = 24 ∧ le32 (common_info.drop 16) % 65536 = 0) ∧
      (¬ (le16 (common_info.drop 14) = 24 ∧ le32 (common_info.drop 16) % 65536 = 0) →
        main (some (header ++ common_info ++ rest)) true u = ⟨[], some 1⟩) ∧
      ∃ info, info.length = COMMON_INFO_SIZE ∧ le16 (info.drop 14) = 24 ∧
        le32 (info.drop 16) = 65536 ∧
        (main (some (header ++ info ++ rest)) true u).status ≠ some 1 := by
  have key : ∀ info : List Nat, info.length = COMMON_INFO_SIZE →
      ((main (some (header ++ info ++ rest)) true u).status ≠ some 1 ↔
        le16 (info.drop 14) = 24 ∧ le32 (info.drop 16) % 65536 = 0) ∧
      (¬ (le16 (info.drop 14) = 24 ∧ le32 (info.drop 16) % 65536 = 0) →
        main (some (header ++ info ++ rest)) true u = ⟨[], some 1⟩) := by
    intro info hi
    rw [main_eq header info rest u hh hi]
    have e : (2 : Nat) ^ 16 = 65536 := by norm_num
    rw [e]
    by_cases hv : le16 (info.drop 14) = 24 ∧ le32 (info.drop 16) % 65536 = 0
    · have hn : ¬ (le16 (info.drop 14) ≠ 24 ∨ le32 (info.drop 16) % 65536 ≠ 0) := by
        rw [hv.1, hv.2]; decide
      rw [if_neg hn]
      exact ⟨⟨fun _ => hv, fun _ => mainTail_status_ne_one _ _ _ _⟩, fun h => absurd hv h⟩
    · have hp : le16 (info.drop 14) ≠ 24 ∨ le32 (info.drop 16) % 65536 ≠ 0 := by
        by_cases h1 : le16 (info.drop 14) = 24
        · exact Or.inr (fun h2 => hv ⟨h1, h2⟩)
        · exact Or.inl h1
      rw [if_pos hp]
      exact ⟨⟨fun h => absurd rfl h, fun h => absurd h hv⟩, fun _ => rfl⟩
  refine ⟨(key common_info hc).1, (key common_info hc).2,
    sampleInfo [1, 0, 0, 0] [1, 0, 0, 0] [24, 0] [0, 0, 1, 0], by decide, by decide, by decide, ?_⟩
  exact (key _ (by decide)).1.2 (by decide)

/-- Witness of C11: a 57-byte file with the compression bytes `00 00 01 00`. -/
theorem compression_field_width_witness :
    (main (some (sampleHeader [54, 0, 0, 0] ++
        sampleInfo [1, 0, 0, 0] [1, 0, 0, 0] [24, 0] [0, 0, 1, 0] ++ [1, 2, 3]))
        true sampleMachine).status ≠ some 1 ↔
      le16 ((sampleInfo [1, 0, 0, 0] [1, 0, 0, 0] [24, 0] [0, 0, 1, 0]).drop 14) = 24 ∧
        le32 ((sampleInfo [1, 0, 0, 0] [1, 0, 0, 0] [24, 0] [0, 0, 1, 0]).drop 16) % 65536 = 0 :=
  (compression_field_width (sampleHeader [54, 0, 0, 0])
    (sampleInfo [1, 0, 0, 0] [1, 0, 0, 0] [24, 0] [0, 0, 1, 0]) [1, 2, 3] sampleMachine
    (by decide) (by decide)).1

/-! ## The range of the gray value -/

/-- C16: for bytes `r`, `g`, `b` the intermediate `77*r + 150*g + 29*b + 128`
is at most 65408, so its shift by 8 is at most 255 and the conversion to
`unsigned char` loses nothing; and the gray value lies between the smallest and
the largest of the three channels. -/
theorem grayscale_range (r g b : Nat) (hr : r < 256) (hg : g < 256) (hb : b < 256) :
    77 * r + 150 * g + 29 * b + 128 ≤ 65408 ∧
      (77 * r + 150 * g + 29 * b + 128) >>> 8 ≤ 255 ∧
      grayscale r g b = (77 * r + 150 * g + 29 * b + 128) >>> 8 ∧
      min r (min g b) ≤ grayscale r g b ∧ grayscale r g b ≤ max r (max g b) := by
  have he := grayscale_eq r g b hr hg hb
  rw [he]
  simp only [Nat.shiftRight_eq_div_pow]
  refine ⟨by omega, by omega, trivial, by omega, by omega⟩

/-- Witness of C16 at the pixel `(200, 100, 50)`. -/
theorem grayscale_range_witness :
    min 200 (min 100 50) ≤ grayscale 200 100 50 ∧ grayscale 200 100 50 ≤ max 200 (max 100 50) :=
  (grayscale_range 200 100 50 (by decide) (by decide) (by decide)).2.2.2

/-- C17: for bytes `r`, `g`, `b` the gray value differs from the exact luma
`0.299*r + 0.587*g + 0.114*b` by less than 1, that is
`|1000 * grayscale r g b - (299*r + 587*g + 114*b)| < 1000`. -/
theorem grayscale_error (r g b : Nat) (hr : r < 256) (hg : g < 256) (hb : b < 256) :
    |1000 * (grayscale r g b : Int) - (299 * (r : Int) + 587 * (g : Int) + 114 * (b : Int))|
        < 1000 ∧
      |(grayscale r g b : ℚ) - (0.299 * (r : ℚ) + 0.587 * (g : ℚ) + 0.114 * (b : ℚ))| < 1 := by
  have he := grayscale_eq r g b hr hg hb
  rw [Nat.shiftRight_eq_div_pow] at he
  have h1 : 1000 * grayscale r g b < 299 * r + 587 * g + 114 * b + 1000 := by omega
  have h2 : 299 * r + 587 * g + 114 * b < 1000 * grayscale r g b + 1000 := by omega
  constructor
  · rw [abs_lt]
    constructor <;> omega
  · have q1 : (1000 : ℚ) * grayscale r g b < 299 * r + 587 * g + 114 * b + 1000 := by
      exact_mod_cast h1
    have q2 : (299 : ℚ) * r + 587 * g + 114 * b < 1000 * grayscale r g b + 1000 := by
      exact_mod_cast h2
    rw [abs_lt]
    constructor <;> norm_num <;> linarith

/-- Witness of C17 at the pixel `(200, 100, 50)`. -/
theorem grayscale_error_witness :
    |1000 * (grayscale 200 100 50 : Int) - (299 * ((200 : Nat) : Int) + 587 * ((100 : Nat) : Int)
        + 114 * ((50 : Nat) : Int))| < 1000 :=
  (grayscale_error 200 100 50 (by decide) (by decide) (by decide)).1

/-! ## The indices visited by the pixel loop -/

theorem innerTrace_snd (width y : Nat) :
    ∀ (n x : Nat) (img : List Nat), (innerTrace width y n x img).2 = innerLoop width y n x img := by
  intro n
  induction n with
  | zero => intro x img; rfl
  | succ n ih =>
    intro x img
    rw [innerTrace, innerLoop]
    cases loopBody width img y x with
    | none => rfl
    | some img1 => exact ih (x + 1) img1

theorem outerTrace_snd (width : Nat) :
    ∀ (n y : Nat) (img : List Nat), (outerTrace width n y img).2 = outerLoop width n y img := by
  intro n
  induction n with
  | zero => intro y img; rfl
  | succ n ih =>
    intro y img
    rw [outerTrace, outerLoop, innerTrace_snd]
    cases innerLoop width y width 0 img with
    | none => rfl
    | some img1 => exact ih (y + 1) img1

/-- The instrumented loop computes what the transform loop computes. -/
theorem transformTrace_snd (width height : Nat) (img : List Nat) :
    (transformTrace width height img).2 = transform width height img :=
  outerTrace_snd width height 0 img

theorem innerTrace_fst (width y : Nat) :
    ∀ (n x : Nat) (img out : List Nat), innerLoop width y n x img = some out →
      y * width + x + n ≤ 2 ^ 32 →
      (innerTrace width y n x img).1 = List.range' (y * width + x) n := by
  intro n
  induction n with
  | zero => intro x img out _ _; rfl
  | succ n ih =>
    intro x img out h hb
    rw [innerLoop] at h
    rw [innerTrace]
    cases hl : loopBody width img y x with
    | none => rw [hl] at h; cases h
    | some img1 =>
      rw [hl] at h
      simp only []
      rw [ih (x + 1) img1 out h (by omega), Nat.mod_eq_of_lt (by omega), List.range'_succ]
      rfl

theorem outerTrace_fst (width : Nat) :
    ∀ (n y : Nat) (img out : List Nat), outerLoop width n y img = some out →
      (y + n) * width ≤ 2 ^ 32 →
      (outerTrace width n y img).1 = List.range' (y * width) (n * width) := by
  intro n
  induction n with
  | zero => intro y img out _ _; simp [outerTrace]
  | succ n ih =>
    intro y img out h hb
    rw [outerLoop] at h
    rw [outerTrace, innerTrace_snd]
    have e1 : (y + (n + 1)) * width = y * width + width + n * width := by ring
    have e2 : (y + 1 + n) * width = y * width + width + n * width := by ring
    cases hl : innerLoop width y width 0 img with
    | none => rw [hl] at h; cases h
    | some img1 =>
      rw [hl] at h
      simp only []
      rw [ih (y + 1) img1 out h (by omega), innerTrace_fst width y width 0 img img1 hl (by omega)]
      have e3 : (y + 1) * width = y * width + 0 + 1 * width := by ring
      have e4 : (n + 1) * width = n * width + width := by ring
      rw [e3, e4, List.range'_append]
      rfl

theorem outerTrace_width_zero :
    ∀ (n y : Nat) (img : List Nat), outerTrace 0 n y img = ([], some img) := by
  intro n
  induction n with
  | zero => intro y img; rfl
  | succ n ih =>
    intro y img
    rw [outerTrace]
    simp only [innerTrace, ih, List.append_nil]

theorem innerTrace_ne_nil (width y n x : Nat) (img : List Nat) :
    (innerTrace width y (n + 1) x img).1 ≠ [] := by
  rw [innerTrace]
  cases loopBody width img y x <;> simp

theorem outerTrace_ne_nil (width n y : Nat) (img : List Nat) :
    (outerTrace (width + 1) (n + 1) y img).1 ≠ [] := by
  rw [outerTrace]
  have h := innerTrace_ne_nil (width + 1) y width 0 img
  cases (innerTrace (width + 1) y (width + 1) 0 img).2 <;> simp [h]

/-- C15: for `width * height * 3 < 2 ^ 31` and a pixel buffer of `img_size`
bytes, the nested loop enters its body for the indices
`0, 1, .., width * height - 1`, each once and in this order, the loop never
leaves the buffer, and every byte offset `3*i`, `3*i + 1`, `3*i + 2` it uses
is below `img_size = width * height * 3`. -/
theorem traversal_in_bounds (width height : Nat) (img : List Nat)
    (hsz : width * height * 3 < 2 ^ 31) (hlen : img.length = img_size width height) :
    (transformTrace width height img).1 = List.range (width * height) ∧
      (∃ out, (transformTrace width height img).2 = some out) ∧
      img_size width height = width * height * 3 ∧
      ∀ i ∈ (transformTrace width height img).1,
        i < 2 ^ 31 ∧ 3 * i < img_size width height ∧ 3 * i + 1 < img_size width height ∧
          3 * i + 2 < img_size width height := by
  have hi := img_size_of_lt width height (by omega)
  rw [hi] at hlen
  obtain ⟨out, ho, -, -⟩ := transform_done width height img hsz hlen
  have hc : height * width = width * height := Nat.mul_comm _ _
  have ht : (transformTrace width height img).1 = List.range (width * height) := by
    unfold transformTrace
    rw [outerTrace_fst width height 0 img out ho (by rw [Nat.zero_add, hc]; omega),
      List.range_eq_range', hc, Nat.zero_mul]
  refine ⟨ht, ⟨out, by rw [transformTrace_snd, ho]⟩, hi, fun i hmem => ?_⟩
  rw [ht, List.mem_range] at hmem
  rw [hi]
  omega

/-- Witness of C15: the 2x1 image. -/
theorem traversal_in_bounds_witness :
    (transformTrace 2 1 [0, 0, 255, 255, 255, 255]).1 = List.range (2 * 1) :=
  (traversal_in_bounds 2 1 [0, 0, 255, 255, 255, 255] (by decide) (by decide)).1

/-- C14, counterexample: `width = height = 65536`.  The computed `pix_num` is
0 and the pixel buffer is empty, yet the loop body is entered (for the index
0) and leaves the buffer. -/
theorem empty_image_counterexample :
    pix_num 65536 65536 = 0 ∧ img_size 65536 65536 = 0 ∧
      (transformTrace 65536 65536 []).1 = [0] ∧ transform 65536 65536 [] = none := by
  decide

/-- C14, amended: when the computed `pix_num` is 0 the pixel buffer is empty
(`img_size = 0`); the loop body is entered zero times exactly when `width = 0`
or `height = 0`, and the loop then leaves the buffer as it is. -/
theorem empty_image (width height : Nat) (img : List Nat) (hpix : pix_num width height = 0) :
    img_size width height = 0 ∧
      ((transformTrace width height img).1 = [] ↔ width = 0 ∨ height = 0) ∧
      (width = 0 ∨ height = 0 → transform width height img = some img) := by
  have hz : ∀ w h : Nat, w = 0 ∨ h = 0 → transformTrace w h img = ([], some img) := by
    intro w h hwh
    unfold transformTrace
    rcases hwh with hw | hh
    · rw [hw]; exact outerTrace_width_zero h 0 img
    · rw [hh]; rfl
  refine ⟨by unfold img_size; rw [hpix]; rfl, ⟨fun ht => ?_, fun hwh => by rw [hz _ _ hwh]⟩,
    fun hwh => ?_⟩
  · cases width with
    | zero => exact Or.inl rfl
    | succ w =>
      cases height with
      | zero => exact Or.inr rfl
      | succ h => exact absurd ht (outerTrace_ne_nil w h 0 img)
  · rw [← transformTrace_snd, hz _ _ hwh]

/-- Witness of C14 (amended): width 0, height 5. -/
theorem empty_image_witness :
    img_size 0 5 = 0 ∧ ((transformTrace 0 5 []).1 = [] ↔ 0 = 0 ∨ 5 = 0) ∧
      (0 = 0 ∨ 5 = 0 → transform 0 5 [] = some []) :=
  empty_image 0 5 [] (by decide)

/-! ## The order of the pixel updates -/

theorem Seen.visit {img cur seen : List Nat} {i : Nat} (h : Seen img seen cur)
    (hi : i ∉ seen) (hn : i * 3 + 3 ≤ img.length) :
    Seen img (i :: seen) (pixelUpdate cur (i * 3)) := by
  obtain ⟨hl, hb⟩ := h
  refine ⟨by rw [length_pixelUpdate, hl], fun j => ?_⟩
  rw [byteAt_pixelUpdate cur i j (by omega)]
  have hg : grayAt cur i = grayAt img i := by
    have e0 : i * 3 / 3 = i := by omega
    have e1 : (i * 3 + 1) / 3 = i := by omega
    have e2 : (i * 3 + 2) / 3 = i := by omega
    unfold grayAt
    rw [hb (i * 3 + 2), hb (i * 3 + 1), hb (i * 3), e0, e1, e2]
    simp only [if_neg hi]
  by_cases h1 : i * 3 ≤ j ∧ j < i * 3 + 3
  · have h2 : j / 3 = i := by omega
    rw [if_pos h1, h2, if_pos (List.mem_cons_self _ _), hg]
  · have h2 : j / 3 ≠ i := by omega
    rw [if_neg h1, hb j]
    by_cases h3 : j / 3 ∈ seen
    · rw [if_pos h3, if_pos (List.mem_cons_of_mem _ h3)]
    · rw [if_neg h3, if_neg (fun hm => by
        rcases List.mem_cons.1 hm with e | e
        · exact h2 e
        · exact h3 e)]

theorem applyOrder_seen (img : List Nat) :
    ∀ (order seen cur : List Nat), Seen img seen cur → (∀ i ∈ order, i ∉ seen) →
      order.Nodup → (∀ i ∈ order, i * 3 + 3 ≤ img.length) →
      Seen img (order.reverse ++ seen) (applyOrder order cur) := by
  intro order
  induction order with
  | nil => intro seen cur h _ _ _; simpa [applyOrder] using h
  | cons i rest ih =>
    intro seen cur h hns hnd hlen
    have hi : i ∉ seen := hns i (List.mem_cons_self _ _)
    have hd := List.nodup_cons.1 hnd
    have h1 := h.visit hi (hlen i (List.mem_cons_self _ _))
    have h2 := ih (i :: seen) (pixelUpdate cur (i * 3)) h1
      (fun j hj hm => by
        rcases List.mem_cons.1 hm with e | e
        · exact hd.1 (e ▸ hj)
        · exact hns j (List.mem_cons_of_mem _ hj) e)
      hd.2 (fun j hj => hlen j (List.mem_cons_of_mem _ hj))
    have e : (i :: rest).reverse ++ seen = rest.reverse ++ i :: seen := by simp
    rw [e]
    exact h2

/-- C13: for `width * height * 3 < 2 ^ 31` and a buffer of
`width * height * 3` bytes, the transform loop gives what the pixel updates
give when they are applied to the indices `0 .. width * height - 1` in any
order; and a pixel of the result depends only on the pixel of the input at the
same index. -/
theorem transform_order_independent (width height : Nat) (img : List Nat)
    (hsz : width * height * 3 < 2 ^ 31) (hlen : img.length = width * height * 3)
    (order : List Nat) (hperm : order.Perm (List.range (width * height))) :
    transform width height img = some (applyOrder order img) ∧
      ∀ img2 : List Nat, img2.length = width * height * 3 →
        ∀ i, i < width * height → byteAt img2 (i * 3) = byteAt img (i * 3) →
          byteAt img2 (i * 3 + 1) = byteAt img (i * 3 + 1) →
          byteAt img2 (i * 3 + 2) = byteAt img (i * 3 + 2) →
          ∃ out out2, transform width height img = some out ∧
            transform width height img2 = some out2 ∧
            byteAt out2 (i * 3) = byteAt out (i * 3) ∧
            byteAt out2 (i * 3 + 1) = byteAt out (i * 3 + 1) ∧
            byteAt out2 (i * 3 + 2) = byteAt out (i * 3 + 2) := by
  obtain ⟨out, ho, hl, hg⟩ := transform_done width height img hsz hlen
  constructor
  · have hmem : ∀ i, i ∈ order ↔ i < width * height := fun i => by
      rw [hperm.mem_iff, List.mem_range]
    have hs := applyOrder_seen img order [] img ⟨rfl, fun j => by simp⟩
      (fun i _ hm => by cases hm) (hperm.nodup_iff.2 (List.nodup_range _))
      (fun i hi' => by have := (hmem i).1 hi'; omega)
    rw [ho]
    congr 1
    apply ext_byteAt (by rw [hl, hs.1])
    intro j hj
    rw [hl] at hj
    rw [hg j hj, hs.2 j, if_pos]
    rw [List.append_nil, List.mem_reverse, hmem]
    omega
  · intro img2 hlen2 i hi h0 h1 h2
    obtain ⟨out2, ho2, -, hg2⟩ := transform_done width height img2 hsz hlen2
    have e0 : i * 3 / 3 = i := by omega
    have e1 : (i * 3 + 1) / 3 = i := by omega
    have e2 : (i * 3 + 2) / 3 = i := by omega
    have hgray : grayAt img2 i = grayAt img i := by
      unfold grayAt
      rw [h0, h1, h2]
    refine ⟨out, out2, ho, ho2, ?_, ?_, ?_⟩
    · rw [hg2 _ (by omega), hg _ (by omega), e0, hgray]
    · rw [hg2 _ (by omega), hg _ (by omega), e1, hgray]
    · rw [hg2 _ (by omega), hg _ (by omega), e2, hgray]

/-- Witness of C13: the 2x1 image with the second pixel updated first. -/
theorem transform_order_independent_witness :
    transform 2 1 [0, 0, 255, 255, 255, 255] =
      some (applyOrder [1, 0] [0, 0, 255, 255, 255, 255]) :=
  (transform_order_independent 2 1 [0, 0, 255, 255, 255, 255] (by decide) (by decide)
    [1, 0] (by decide)).1

end Scaler
